import Mathlib

/- Shallow embedding of the budgeting application in src/script.js.
   Calendar dates are represented by an absolute month index together with a
   day of month, mirroring ECMAScript Date month normalization; monetary
   amounts are modelled as rationals. -/

namespace LoneBudget

/-- Calendar date: `ym` is the absolute month index (year * 12 + zero-based
month) and `day` the one-based day of month, as held by an ECMAScript Date. -/
structure Date where
  ym : Int
  day : Nat
deriving DecidableEq, Repr

/-- Gregorian leap-year rule, as used by ECMAScript Date. -/
def isLeapYear (y : Int) : Bool :=
  y % 4 == 0 && (y % 100 != 0 || y % 400 == 0)

/-- Number of days in the month with absolute index `ym` (month 0 is January
of year 0; index 1 within a year is February). -/
def daysInMonth (ym : Int) : Nat :=
  let m := ym % 12
  if m == 1 then (if isLeapYear (ym / 12) then 29 else 28)
  else if m == 3 || m == 5 || m == 8 || m == 10 then 30
  else 31

/-- ECMAScript setMonth semantics: move to absolute month `d.ym + k` keeping
the day of month, rolling any overflow past the end of the target month over
into the following month (for day at most 31 a single carry suffices). -/
def Date.addMonths (d : Date) (k : Int) : Date :=
  let ym := d.ym + k
  if d.day ≤ daysInMonth ym then ⟨ym, d.day⟩
  else ⟨ym + 1, d.day - daysInMonth ym⟩

/-- Chronological order on dates (ECMAScript timestamp comparison restricted
to calendar dates sharing a time of day). -/
def Date.le (a b : Date) : Prop :=
  a.ym < b.ym ∨ (a.ym = b.ym ∧ a.day ≤ b.day)

instance : DecidableRel Date.le := fun a b =>
  decidable_of_iff (a.ym < b.ym ∨ (a.ym = b.ym ∧ a.day ≤ b.day)) Iff.rfl

/-- Boolean form of the chronological order, used by the code when it
compares Date objects. -/
def Date.leb (a b : Date) : Bool := decide (Date.le a b)

/-- Zero-padded two-digit month number, as produced by padStart(2, 0). -/
def pad2 (n : Nat) : String := if n < 10 then "0" ++ toString n else toString n

/-- Month key string for the month with absolute index `ym`: the year, a
dash, and the zero-padded one-based month number. -/
def monthKeyOf (ym : Int) : String :=
  toString (ym / 12) ++ "-" ++ pad2 ((ym % 12).toNat + 1)

/-- currentMonthKey from App (src/script.js): key of the month containing
the current date. -/
def currentMonthKey (d : Date) : String := monthKeyOf d.ym

/-- previousMonthKey from App (src/script.js): copy the current date, call
setMonth with the month decremented by one, then read year and month of the
resulting (normalized) date. -/
def previousMonthKey (d : Date) : String := monthKeyOf ((d.addMonths (-1)).ym)

/-- handleMonthChange from App (src/script.js): set the day of month to 1,
then shift the month by one in the given direction. -/
def handleMonthChange (direction : String) (d : Date) : Date :=
  Date.addMonths { d with day := 1 } (if direction = "next" then 1 else -1)

/-- Transaction type marker: Income or Expense. -/
inductive TxType
  | income
  | expense
deriving DecidableEq, Repr

/-- Transaction record held in the App state (src/script.js): identifiers
are modelled as natural numbers drawn from a monotone supply standing in for
uuidv4 freshness. -/
structure Transaction where
  id : Nat
  description : String
  amount : ℚ
  type : TxType
  category : Option String
  date : Date
  recurringId : Option Nat
deriving DecidableEq, Repr

/-- Draft transaction as built by the add form, before an id is assigned. -/
structure TxDraft where
  description : String
  amount : ℚ
  type : TxType
  category : Option String
  date : Date
deriving DecidableEq, Repr

/-- handleAddTransaction from App (src/script.js): repeat count 0 appends one
transaction with a fresh id and no group id; repeat count at least 1 appends
repeat+1 occurrences sharing one fresh group id, occurrence i dated i months
after the draft date. The fresh identifiers are `nextId` (the group id, or
the single transaction id when not recurring) and `nextId + 1 + i` for
occurrence i. -/
def handleAddTransaction (draft : TxDraft) (recurrence : Nat) (nextId : Nat)
    (s : List Transaction) : List Transaction :=
  if 0 < recurrence then
    let recurringId := nextId
    let newTransactions := (List.range (recurrence + 1)).map fun i =>
      { id := nextId + 1 + i, description := draft.description,
        amount := draft.amount, type := draft.type, category := draft.category,
        date := draft.date.addMonths i, recurringId := some recurringId }
    s ++ newTransactions
  else
    s ++ [{ id := nextId, description := draft.description,
            amount := draft.amount, type := draft.type,
            category := draft.category, date := draft.date,
            recurringId := none }]

/-- Selection predicate used by the future scope of handleUpdateTransaction
(src/script.js): same group id as the edited transaction and date at or
after the original date of the edited occurrence. -/
def futureSelect (u : Transaction) (originalDate : Date) (t : Transaction) : Bool :=
  t.recurringId == u.recurringId && Date.leb originalDate t.date

/-- Chronological order on transactions, the comparator the code passes to
the stable sort. -/
def byDateLe (a b : Transaction) : Prop := Date.le a.date b.date

instance : DecidableRel byDateLe := fun a b =>
  inferInstanceAs (Decidable (Date.le a.date b.date))

instance : IsTotal Transaction byDateLe where
  total := fun a b => by
    unfold byDateLe Date.le
    omega

instance : IsTrans Transaction byDateLe where
  trans := fun a b c hab hbc => by
    unfold byDateLe Date.le at *
    omega

/-- Group members dated at or after the original date, sorted chronologically
(the filter followed by the stable sort in handleUpdateTransaction; a stable
structural sort is used so the model evaluates, and stable sorts under one
comparator agree with the ECMAScript stable sort). -/
def futureSorted (u : Transaction) (originalDate : Date)
    (s : List Transaction) : List Transaction :=
  (s.filter (futureSelect u originalDate)).insertionSort byDateLe

/-- Rewrite applied to the occurrence re-indexed k by the future scope:
description, amount, type and category are overwritten with the edited
values and the date becomes the edited date advanced by k months; id and
group id are kept. -/
def rewriteOccurrence (u : Transaction) (k : Nat) (t : Transaction) : Transaction :=
  { t with
    description := u.description,
    amount := u.amount,
    type := u.type,
    category := u.category,
    date := u.date.addMonths k }

/-- Indexed map over the sorted selection (the map with index inside
handleUpdateTransaction). -/
def rewriteFrom (u : Transaction) : Nat → List Transaction → List Transaction
  | _, [] => []
  | k, t :: ts => rewriteOccurrence u k t :: rewriteFrom u (k + 1) ts

/-- handleUpdateTransaction from App (src/script.js). For scope future on a
transaction carrying a group id: locate the original occurrence by id (a
miss is a silent no-op), select the group members dated at or after it, sort
them chronologically, rewrite them re-indexed from the edited date, and put
each rewritten occurrence back by matching id. Any other scope replaces only
the transaction with the matching id by the edited transaction. -/
def handleUpdateTransaction (u : Transaction) (scope : String)
    (s : List Transaction) : List Transaction :=
  if scope = "future" ∧ u.recurringId.isSome then
    match s.find? (fun t => t.id == u.id) with
    | none => s
    | some orig =>
      let updatedFutureTransactions := rewriteFrom u 0 (futureSorted u orig.date s)
      s.map fun t =>
        match updatedFutureTransactions.find? (fun uft => uft.id == t.id) with
        | some v => v
        | none => t
  else
    s.map fun t => if t.id = u.id then u else t

/-- handleDeleteTransaction from App (src/script.js): with a group id and the
all-future confirmation, locate the target by id (a miss is a silent no-op)
and drop every member of the group dated at or after it; with the
only-this-one choice, or without a group id, drop the transactions carrying
the given id. -/
def handleDeleteTransaction (id : Nat) (recurringId : Option Nat)
    (confirmFuture : Bool) (s : List Transaction) : List Transaction :=
  match recurringId with
  | some _ =>
    if confirmFuture then
      match s.find? (fun t => t.id == id) with
      | none => s
      | some target =>
        s.filter fun t =>
          !(t.recurringId == recurringId && Date.leb target.date t.date)
    else
      s.filter fun t => !(t.id == id)
  | none =>
    s.filter fun t => !(t.id == id)

/-- Validation message shown inline by both transaction forms. -/
def validationError : String := "Please enter a valid description and positive amount."

/-- handleSubmit of TransactionForm (src/script.js): parseFloat of the raw
amount text is abstracted as an optional rational, none standing for NaN.
The guard rejects an empty description, an unparsable amount and a
non-positive amount before any mutation; on success the add handler is
invoked with the repeat count (0 when the recurring box is unchecked), the
draft carrying a category exactly for Expense. -/
def TransactionForm.handleSubmit (description : String) (numericAmount : Option ℚ)
    (type : TxType) (category : String) (isRecurring : Bool) (recurrence : Nat)
    (currentDate : Date) (nextId : Nat) (s : List Transaction) :
    List Transaction × Option String :=
  match numericAmount with
  | none => (s, some validationError)
  | some a =>
    if description = "" ∨ a ≤ 0 then (s, some validationError)
    else
      (handleAddTransaction
        { description := description, amount := a, type := type,
          category := if type = TxType.expense then some category else none,
          date := currentDate }
        (if isRecurring then recurrence else 0) nextId s,
       none)

/-- handleUpdate of EditTransactionModal (src/script.js): same validation as
the add form; on success the update handler receives the edited transaction,
built from the original by overwriting description, amount, type, category
(present exactly for Expense) and date with the edited calendar date, id and
group id untouched. -/
def EditTransactionModal.handleUpdate (transaction : Transaction)
    (description : String) (numericAmount : Option ℚ) (type : TxType)
    (category : String) (editedDate : Date) (scope : String)
    (s : List Transaction) : List Transaction × Option String :=
  match numericAmount with
  | none => (s, some validationError)
  | some a =>
    if description = "" ∨ a ≤ 0 then (s, some validationError)
    else
      (handleUpdateTransaction
        { transaction with
          description := description,
          amount := a,
          type := type,
          category := if type = TxType.expense then some category else none,
          date := editedDate }
        scope s,
       none)

/-- Transaction well-formedness from the data model: positive amount and a
category exactly for Expense transactions. -/
def TransactionInvariant (t : Transaction) : Prop :=
  0 < t.amount ∧ (t.category.isSome ↔ t.type = TxType.expense)

/-- Expense categories (ExpenseCategoryValues in src/script.js). -/
inductive ExpenseCat
  | household
  | groceries
  | subscriptions
  | diningOut
  | travel
  | other
deriving DecidableEq, Repr

/-- Recurring-flags object of a saved budget: each field models one possible
key of the JavaScript object, none meaning the key is absent; truthiness of
a flag is getD false. -/
structure RecurringFlags where
  incomeGoal : Option Bool
  savingsGoal : Option Bool
  expenseBudgets : Option (ExpenseCat → Option Bool)

/-- Object.keys on the recurring map has length zero exactly when every
possible key is absent. -/
def RecurringFlags.isEmpty (r : RecurringFlags) : Bool :=
  r.incomeGoal.isNone && r.savingsGoal.isNone && r.expenseBudgets.isNone

/-- Recurring map with no keys, as in the built-in empty budget. -/
def emptyFlags : RecurringFlags :=
  { incomeGoal := none, savingsGoal := none, expenseBudgets := none }

/-- Budget record keyed by month (src/script.js): goals, per-category caps
and the recurring map (none when a stored blob lacks the field). -/
structure Budget where
  incomeGoal : ℚ
  savingsGoal : ℚ
  expenseBudgets : ExpenseCat → ℚ
  recurring : Option RecurringFlags

/-- Value part of a budget, the draft the budget editor holds in state
(its recurring flags are a separate state variable). -/
structure BudgetValues where
  incomeGoal : ℚ
  savingsGoal : ℚ
  expenseBudgets : ExpenseCat → ℚ

/-- Value part of a stored budget. -/
def Budget.toValues (b : Budget) : BudgetValues :=
  { incomeGoal := b.incomeGoal, savingsGoal := b.savingsGoal,
    expenseBudgets := b.expenseBudgets }

/-- emptyBudget from App (src/script.js): the built-in defaults. -/
def emptyBudget : Budget :=
  { incomeGoal := 5000, savingsGoal := 500, expenseBudgets := fun _ => 0,
    recurring := some emptyFlags }

/-- Trigger test in the BudgetSetup effect (src/script.js): the current
budget counts as the initial default when its recurring map is absent or has
no keys. -/
def Budget.isInitialDefault (b : Budget) : Bool :=
  match b.recurring with
  | none => true
  | some r => r.isEmpty

/-- BudgetSetup opening effect (src/script.js): when the current budget is
the initial default and the previous budget carries a recurring object (even
an empty one is truthy), synthesize the draft values field by field — a field
whose previous flag is truthy copies the previous value, any other field
keeps the current initial value — and adopt the previous recurring flags;
otherwise use the initial budget and its flags as-is. -/
def budgetSetupDraft (initialBudget : Budget) (previousBudget : Option Budget) :
    BudgetValues × RecurringFlags :=
  match previousBudget with
  | some pb =>
    match pb.recurring with
    | some pr =>
      if initialBudget.isInitialDefault then
        ({ incomeGoal := if pr.incomeGoal.getD false then pb.incomeGoal
             else initialBudget.incomeGoal,
           savingsGoal := if pr.savingsGoal.getD false then pb.savingsGoal
             else initialBudget.savingsGoal,
           expenseBudgets := fun cat =>
             match pr.expenseBudgets with
             | some flags =>
               if (flags cat).getD false then pb.expenseBudgets cat
               else initialBudget.expenseBudgets cat
             | none => initialBudget.expenseBudgets cat },
         pr)
      else (initialBudget.toValues, initialBudget.recurring.getD emptyFlags)
    | none => (initialBudget.toValues, initialBudget.recurring.getD emptyFlags)
  | none => (initialBudget.toValues, initialBudget.recurring.getD emptyFlags)

/-- Stored current budget for the C4 counterexample: saved with a value of
7000 and an empty recurring map (reachable by saving without checking any
recur box). -/
def cInitC4 : Budget :=
  { incomeGoal := 7000, savingsGoal := 500, expenseBudgets := fun _ => 0,
    recurring := some emptyFlags }

/-- Previous-month budget for the C4 counterexample: income flag present but
false. -/
def cPrevC4 : Budget :=
  { incomeGoal := 6000, savingsGoal := 800, expenseBudgets := fun _ => 0,
    recurring := some { incomeGoal := some false, savingsGoal := none,
                        expenseBudgets := none } }

/-- Previous-month budget for the C4 witness: income flag set. -/
def wPrevC4 : Budget :=
  { incomeGoal := 6000, savingsGoal := 800, expenseBudgets := fun _ => 0,
    recurring := some { incomeGoal := some true, savingsGoal := none,
                        expenseBudgets := none } }

/-- Concrete fixture transaction used by witnesses: id `i`, dated day 5 of
absolute month `ymv`, group id `rid`. -/
def sampleTx (i : Nat) (ymv : Int) (rid : Option Nat) : Transaction :=
  { id := i, description := "gym", amount := 50, type := TxType.expense,
    category := some "Other", date := ⟨ymv, 5⟩, recurringId := rid }

theorem daysInMonth_pos (ym : Int) : 1 ≤ daysInMonth ym := by
  unfold daysInMonth
  dsimp only
  split
  · split <;> omega
  · split <;> omega

theorem map_id_rewriteFrom (u : Transaction) (k : Nat) (F : List Transaction) :
    (rewriteFrom u k F).map Transaction.id = F.map Transaction.id := by
  induction F generalizing k with
  | nil => rfl
  | cons a ts ih => simp [rewriteFrom, rewriteOccurrence, ih]

theorem mem_rewriteFrom (u x : Transaction) (k : Nat) (F : List Transaction)
    (h : x ∈ rewriteFrom u k F) :
    ∃ j t0, t0 ∈ F ∧ x = rewriteOccurrence u j t0 := by
  induction F generalizing k with
  | nil => exact absurd h (List.not_mem_nil x)
  | cons a ts ih =>
    rcases List.mem_cons.mp h with h2 | h2
    · exact ⟨k, a, List.mem_cons_self a ts, h2⟩
    · obtain ⟨j, t0, ht0, hx⟩ := ih (k + 1) h2
      exact ⟨j, t0, List.mem_cons_of_mem a ht0, hx⟩

theorem find?_rewriteFrom (u t : Transaction) :
    ∀ (F : List Transaction) (k : Nat),
      (F.map Transaction.id).Nodup → t ∈ F →
      (rewriteFrom u k F).find? (fun x => x.id == t.id)
        = some (rewriteOccurrence u (k + F.indexOf t) t) := by
  intro F
  induction F with
  | nil => intro k _ ht; exact absurd ht (List.not_mem_nil t)
  | cons a ts ih =>
    intro k hnd ht
    simp only [List.map_cons, List.nodup_cons] at hnd
    by_cases hat : a = t
    · subst hat
      simp only [rewriteFrom]
      rw [List.find?_cons_of_pos _ (by simp [rewriteOccurrence])]
      rw [List.indexOf_cons]
      simp
    · have hts : t ∈ ts := by
        rcases List.mem_cons.mp ht with h | h
        · exact absurd h.symm hat
        · exact h
      have haid : a.id ≠ t.id := fun he =>
        hnd.1 (he ▸ List.mem_map_of_mem Transaction.id hts)
      simp only [rewriteFrom]
      rw [List.find?_cons_of_neg _ (by simp [rewriteOccurrence, haid])]
      rw [ih (k + 1) hnd.2 hts]
      have harith : k + (a :: ts).indexOf t = (k + 1) + ts.indexOf t := by
        rw [List.indexOf_cons]
        have hbeq : (a == t) = false := by simp [hat]
        rw [hbeq]
        simp only [cond_false]
        omega
      rw [harith]

theorem find?_rewriteFrom_none (u : Transaction) (i : Nat) (k : Nat)
    (F : List Transaction) (h : i ∉ F.map Transaction.id) :
    (rewriteFrom u k F).find? (fun x => x.id == i) = none := by
  apply List.find?_eq_none.mpr
  intro x hx
  obtain ⟨j, t0, ht0, rfl⟩ := mem_rewriteFrom u x k F hx
  simp only [beq_iff_eq]
  intro he
  have he2 : t0.id = i := he
  exact h (he2 ▸ List.mem_map_of_mem Transaction.id ht0)

/-- C2: editing with scope future an edited transaction carrying group id g
whose id is found in the collection with original date T0 rewrites exactly
the group members dated at or after T0: pointwise over the collection, a
selected member t becomes rewriteOccurrence at the index of t in the
chronologically sorted selection (description, amount, type, category from
the edited values; date equal to the edited date advanced by that index in
months; id and group id kept), while every non-selected transaction is left
unchanged in place. The sorted selection is a permutation of the selected
members and is sorted chronologically. -/
theorem handleUpdateTransaction_future_spec (u : Transaction)
    (s : List Transaction) (g : Nat) (orig : Transaction)
    (hg : u.recurringId = some g)
    (hnd : (s.map Transaction.id).Nodup)
    (hfind : s.find? (fun t => t.id == u.id) = some orig) :
    handleUpdateTransaction u "future" s
      = s.map (fun t =>
          if futureSelect u orig.date t then
            rewriteOccurrence u ((futureSorted u orig.date s).indexOf t) t
          else t)
    ∧ (futureSorted u orig.date s).Perm
        (s.filter (futureSelect u orig.date))
    ∧ (futureSorted u orig.date s).Pairwise
        (fun a b => Date.le a.date b.date)
    ∧ (∀ t, futureSelect u orig.date t
          = (t.recurringId == some g && Date.leb orig.date t.date))
    ∧ (∀ k t, (rewriteOccurrence u k t).id = t.id
        ∧ (rewriteOccurrence u k t).recurringId = t.recurringId
        ∧ (rewriteOccurrence u k t).description = u.description
        ∧ (rewriteOccurrence u k t).amount = u.amount
        ∧ (rewriteOccurrence u k t).type = u.type
        ∧ (rewriteOccurrence u k t).category = u.category
        ∧ (rewriteOccurrence u k t).date = u.date.addMonths k)
    ∧ orig ∈ s ∧ orig.id = u.id := by
  have hFnodup : ((futureSorted u orig.date s).map Transaction.id).Nodup := by
    have hsub : ((s.filter (futureSelect u orig.date)).map Transaction.id).Sublist
        (s.map Transaction.id) := List.Sublist.map _ (List.filter_sublist s)
    have hfil : ((s.filter (futureSelect u orig.date)).map Transaction.id).Nodup :=
      List.Nodup.sublist hsub hnd
    exact ((List.perm_insertionSort byDateLe
      (s.filter (futureSelect u orig.date))).map Transaction.id).nodup_iff.mpr hfil
  refine ⟨?_, List.perm_insertionSort _ _, ?_, ?_, ?_, ?_, ?_⟩
  · unfold handleUpdateTransaction
    rw [if_pos ⟨rfl, by rw [hg]; rfl⟩, hfind]
    dsimp only
    apply List.map_congr_left
    intro t ht
    by_cases hsel : futureSelect u orig.date t = true
    · have htF : t ∈ futureSorted u orig.date s :=
        (List.mem_insertionSort byDateLe).mpr (List.mem_filter.mpr ⟨ht, hsel⟩)
      rw [find?_rewriteFrom u t _ 0 hFnodup htF]
      simp [hsel]
    · have hidnot : t.id ∉ (futureSorted u orig.date s).map Transaction.id := by
        intro hmem
        obtain ⟨t2, ht2, he⟩ := List.mem_map.mp hmem
        have ht2f := (List.mem_insertionSort byDateLe).mp ht2
        have ht2s := (List.mem_filter.mp ht2f).1
        have heq : t2 = t := List.inj_on_of_nodup_map hnd ht2s ht he
        exact hsel (heq ▸ (List.mem_filter.mp ht2f).2)
      rw [find?_rewriteFrom_none u t.id 0 _ hidnot]
      simp [hsel]
  · exact List.sorted_insertionSort byDateLe (s.filter (futureSelect u orig.date))
  · intro t
    unfold futureSelect
    rw [hg]
  · intro k t
    exact ⟨rfl, rfl, rfl, rfl, rfl, rfl, rfl⟩
  · exact List.mem_of_find?_eq_some hfind
  · have h := List.find?_some hfind
    simpa using h

/-- Witness for C2 at a concrete three-member group: editing the middle
occurrence with scope future rewrites it and the later occurrence, re-anchored
at the edited date, and leaves the earlier occurrence untouched. -/
theorem handleUpdateTransaction_future_spec_witness :
    handleUpdateTransaction
        { id := 11, description := "new", amount := 200, type := TxType.expense,
          category := some "Other", date := ⟨24289, 10⟩, recurringId := some 1 }
        "future"
        [sampleTx 10 24288 (some 1), sampleTx 11 24289 (some 1),
         sampleTx 12 24290 (some 1)]
      = [sampleTx 10 24288 (some 1),
         { id := 11, description := "new", amount := 200,
           type := TxType.expense, category := some "Other",
           date := ⟨24289, 10⟩, recurringId := some 1 },
         { id := 12, description := "new", amount := 200,
           type := TxType.expense, category := some "Other",
           date := ⟨24290, 10⟩, recurringId := some 1 }] := by
  have h := (handleUpdateTransaction_future_spec
    { id := 11, description := "new", amount := 200, type := TxType.expense,
      category := some "Other", date := ⟨24289, 10⟩, recurringId := some 1 }
    [sampleTx 10 24288 (some 1), sampleTx 11 24289 (some 1),
     sampleTx 12 24290 (some 1)]
    1 (sampleTx 11 24289 (some 1)) rfl (by decide) (by decide)).1
  rw [h]
  decide

theorem filter_id_ne_eq_erase (i : Nat) (target : Transaction) :
    ∀ s : List Transaction, (s.map Transaction.id).Nodup → target ∈ s →
      target.id = i →
      (s.filter fun t => !(t.id == i)) = s.erase target := by
  intro s
  induction s with
  | nil => intro _ htm _; exact absurd htm (List.not_mem_nil target)
  | cons a ts ih =>
    intro hnd htm hti
    simp only [List.map_cons, List.nodup_cons] at hnd
    by_cases hat : a = target
    · subst hat
      rw [List.filter_cons_of_neg (by simp [hti]), List.erase_cons_head]
      apply List.filter_eq_self.mpr
      intro t ht
      have hne : t.id ≠ i := by
        intro he
        have h1 : t.id ∈ ts.map Transaction.id :=
          List.mem_map_of_mem Transaction.id ht
        rw [he, ← hti] at h1
        exact hnd.1 h1
      simp [hne]
    · have htm2 : target ∈ ts := by
        rcases List.mem_cons.mp htm with h | h
        · exact absurd h.symm hat
        · exact h
      have haid : a.id ≠ i := by
        intro he
        have h1 : target.id ∈ ts.map Transaction.id :=
          List.mem_map_of_mem Transaction.id htm2
        rw [hti, ← he] at h1
        exact hnd.1 h1
      rw [List.filter_cons_of_pos (by simp [haid])]
      rw [List.erase_cons_tail (by simp [hat])]
      rw [ih hnd.2 htm2 hti]

/-- C3: deleting a transaction without group id (or a grouped one under the
only-this-one choice) removes exactly the transaction with the given id: the
result is a sublist of the collection, membership is kept exactly for the
other ids, and with unique ids the result is the collection with the single
target erased. Deleting a grouped transaction under the all-future choice,
with the target located by id, keeps exactly the transactions that are not
group members dated at or after the target. -/
theorem handleDeleteTransaction_spec (s : List Transaction) (i : Nat)
    (hnd : (s.map Transaction.id).Nodup) :
    (∀ confirm,
        (handleDeleteTransaction i none confirm s).Sublist s
        ∧ (∀ t ∈ s, t ∈ handleDeleteTransaction i none confirm s ↔ t.id ≠ i)
        ∧ ∀ target ∈ s, target.id = i →
            handleDeleteTransaction i none confirm s = s.erase target)
    ∧ (∀ g target, s.find? (fun t => t.id == i) = some target →
        (handleDeleteTransaction i (some g) true s).Sublist s
        ∧ (∀ t ∈ s, t ∈ handleDeleteTransaction i (some g) true s
            ↔ ¬(t.recurringId = some g ∧ Date.le target.date t.date)))
    ∧ (∀ g,
        (handleDeleteTransaction i (some g) false s).Sublist s
        ∧ (∀ t ∈ s, t ∈ handleDeleteTransaction i (some g) false s ↔ t.id ≠ i)
        ∧ ∀ target ∈ s, target.id = i →
            handleDeleteTransaction i (some g) false s = s.erase target) := by
  refine ⟨fun _ => ⟨List.filter_sublist s, fun t ht => ?_, fun target htm hti => ?_⟩,
    fun g target hfind => ⟨?_, fun t ht => ?_⟩,
    fun g => ⟨List.filter_sublist s, fun t ht => ?_, fun target htm hti => ?_⟩⟩
  · simp [handleDeleteTransaction, List.mem_filter, ht]
  · exact filter_id_ne_eq_erase i target s hnd htm hti
  · unfold handleDeleteTransaction
    rw [if_pos rfl, hfind]
    exact List.filter_sublist s
  · unfold handleDeleteTransaction
    rw [if_pos rfl, hfind]
    simp only [List.mem_filter, ht, true_and, Bool.not_eq_true',
      Bool.and_eq_false_iff, beq_eq_false_iff_ne, ne_eq, Date.leb,
      decide_eq_false_iff_not]
    tauto
  · simp [handleDeleteTransaction, List.mem_filter, ht]
  · exact filter_id_ne_eq_erase i target s hnd htm hti

/-- Witness for C3: deleting id 11 from a three-element ungrouped collection
removes exactly that transaction. -/
theorem handleDeleteTransaction_spec_witness :
    handleDeleteTransaction 11 none true
        [sampleTx 10 24288 none, sampleTx 11 24289 none, sampleTx 12 24290 none]
      = [sampleTx 10 24288 none, sampleTx 12 24290 none] := by
  have h := ((handleDeleteTransaction_spec
    [sampleTx 10 24288 none, sampleTx 11 24289 none, sampleTx 12 24290 none]
    11 (by decide)).1 true).2.2 (sampleTx 11 24289 none) (by decide) rfl
  rw [h]
  decide

/-- C6: updating with scope this replaces exactly the transaction whose id
matches the edited one and leaves every other transaction, position by
position, completely unchanged; the payload the edit modal passes keeps the
group id of the transaction being edited. -/
theorem handleUpdateTransaction_this_spec (u : Transaction)
    (s : List Transaction) :
    handleUpdateTransaction u "this" s
      = s.map (fun t => if t.id = u.id then u else t)
    ∧ (handleUpdateTransaction u "this" s).length = s.length
    ∧ (∀ j : Nat, ∀ t : Transaction, s[j]? = some t → t.id ≠ u.id →
        (handleUpdateTransaction u "this" s)[j]? = some t)
    ∧ (∀ j : Nat, ∀ t : Transaction, s[j]? = some t → t.id = u.id →
        (handleUpdateTransaction u "this" s)[j]? = some u)
    ∧ (∀ tx : Transaction, ∀ desc : String, ∀ a : ℚ, ∀ ty : TxType,
        ∀ cat : Option String, ∀ dt : Date,
        ({ tx with
           description := desc, amount := a, type := ty,
           category := cat, date := dt } : Transaction).recurringId
          = tx.recurringId) := by
  have hmain : handleUpdateTransaction u "this" s
      = s.map (fun t => if t.id = u.id then u else t) := by
    unfold handleUpdateTransaction
    rw [if_neg (by simp)]
  refine ⟨hmain, ?_, ?_, ?_, ?_⟩
  · rw [hmain, List.length_map]
  · intro j t hjt hne
    rw [hmain, List.getElem?_map, hjt]
    simp [hne]
  · intro j t hjt heq
    rw [hmain, List.getElem?_map, hjt]
    simp [heq]
  · intro tx desc a ty cat dt
    rfl

/-- Witness for C6 at a two-element collection: only the matching id is
replaced. -/
theorem handleUpdateTransaction_this_spec_witness :
    handleUpdateTransaction (sampleTx 11 24295 none) "this"
        [sampleTx 10 24288 none, sampleTx 11 24289 none]
      = [sampleTx 10 24288 none, sampleTx 11 24295 none] := by
  have h := (handleUpdateTransaction_this_spec (sampleTx 11 24295 none)
    [sampleTx 10 24288 none, sampleTx 11 24289 none]).1
  rw [h]
  decide

/-- C7: an update (any scope) naming an id absent from the collection, and a
delete (any group id and confirmation choice) naming an absent id, leave the
collection unchanged; no error value is produced. -/
theorem missing_id_noop (s : List Transaction) (u : Transaction) (i : Nat)
    (hui : u.id = i)
    (habs : ∀ t ∈ s, t.id ≠ i) :
    (∀ scope, handleUpdateTransaction u scope s = s)
    ∧ (∀ rid confirm, handleDeleteTransaction i rid confirm s = s) := by
  have hfind : s.find? (fun t => t.id == u.id) = none :=
    List.find?_eq_none.mpr (fun t ht => by simp [hui ▸ habs t ht])
  constructor
  · intro scope
    unfold handleUpdateTransaction
    by_cases hcond : scope = "future" ∧ u.recurringId.isSome
    · rw [if_pos hcond, hfind]
    · rw [if_neg hcond]
      have hmap : ∀ t ∈ s, (if t.id = u.id then u else t) = t := by
        intro t ht
        rw [if_neg (hui ▸ habs t ht)]
      rw [List.map_congr_left hmap]
      simp
  · intro rid confirm
    unfold handleDeleteTransaction
    rcases rid with _ | g
    · exact List.filter_eq_self.mpr (fun t ht => by simp [habs t ht])
    · cases confirm with
      | true =>
        rw [if_pos rfl]
        have hfind2 : s.find? (fun t => t.id == i) = none :=
          List.find?_eq_none.mpr (fun t ht => by simp [habs t ht])
        rw [hfind2]
      | false =>
        rw [if_neg (by simp)]
        exact List.filter_eq_self.mpr (fun t ht => by simp [habs t ht])

/-- Witness for C7: updating and deleting id 99, absent from a one-element
collection, both leave it unchanged. -/
theorem missing_id_noop_witness :
    handleUpdateTransaction (sampleTx 99 24288 (some 1)) "future"
        [sampleTx 10 24288 (some 1)]
      = [sampleTx 10 24288 (some 1)]
    ∧ handleDeleteTransaction 99 (some 1) true [sampleTx 10 24288 (some 1)]
      = [sampleTx 10 24288 (some 1)] := by
  have h := missing_id_noop [sampleTx 10 24288 (some 1)]
    (sampleTx 99 24288 (some 1)) 99 rfl (by decide)
  exact ⟨h.1 "future", h.2 (some 1) true⟩

/-- C10: month navigation first normalizes the working date to day 1, so
shifting the month always lands in exactly the adjacent calendar month (the
absolute month index moves by one, with year rollover built in) and on day 1;
no day-of-month overflow can skip a month. -/
theorem handleMonthChange_adjacent_month (direction : String) (d : Date) :
    (handleMonthChange direction d).ym
        = d.ym + (if direction = "next" then 1 else -1)
      ∧ (handleMonthChange direction d).day = 1 := by
  unfold handleMonthChange Date.addMonths
  have h1 : 1 ≤ daysInMonth (d.ym + (if direction = "next" then 1 else -1)) :=
    daysInMonth_pos _
  rw [if_pos h1]
  exact ⟨rfl, rfl⟩

/-- C5 (amended): the resolver returns the month key of the date itself, and
the predecessor key is the key of exactly one month earlier whenever the day
of month does not exceed the length of that earlier month; when the day of
month exceeds it (day 29 to 31), platform rollover makes the predecessor key
equal the current month key instead. -/
theorem monthKey_resolver_amended (d : Date) :
    currentMonthKey d = monthKeyOf d.ym
      ∧ (d.day ≤ daysInMonth (d.ym - 1) →
          previousMonthKey d = monthKeyOf (d.ym - 1))
      ∧ (daysInMonth (d.ym - 1) < d.day →
          previousMonthKey d = monthKeyOf d.ym) := by
  refine ⟨rfl, ?_, ?_⟩
  · intro h
    unfold previousMonthKey Date.addMonths
    have hm : d.ym + (-1) = d.ym - 1 := by omega
    rw [hm, if_pos h]
  · intro h
    unfold previousMonthKey Date.addMonths
    have hm : d.ym + (-1) = d.ym - 1 := by omega
    rw [hm, if_neg (by omega)]
    dsimp only
    have hm2 : d.ym - 1 + 1 = d.ym := by omega
    rw [hm2]

/-- Witness for C5 (amended) at January 15 2024 (absolute month 24288): the
predecessor key is December 2023, exhibiting the year rollover. -/
theorem monthKey_resolver_amended_witness :
    previousMonthKey ⟨24288, 15⟩ = "2023-12"
      ∧ currentMonthKey ⟨24288, 15⟩ = "2024-01" := by
  have h := monthKey_resolver_amended ⟨24288, 15⟩
  constructor
  · have h2 := h.2.1 (by decide)
    rw [h2]
    decide
  · rw [h.1]
    decide

/-- Counterexample to C5 as stated: for March 31 2023 (absolute month 24278,
day 31) the predecessor computation rolls February 31 over to March 3, so the
resolver returns the current month key, not the key of the month one earlier;
the property does not hold for every day of month. -/
theorem monthKey_resolver_counterexample :
    previousMonthKey ⟨24278, 31⟩ = "2023-03"
      ∧ monthKeyOf (24278 - 1) = "2023-02"
      ∧ previousMonthKey ⟨24278, 31⟩ ≠ monthKeyOf (24278 - 1) := by
  refine ⟨by decide, by decide, by decide⟩

/-- C1: adding with repeat count 0 appends exactly one transaction carrying
the draft fields, a fresh id and no group id; with repeat count at least 1 it
appends exactly repeat+1 occurrences in one update, all sharing the fresh
group id, with pairwise distinct ids that are new to the collection,
occurrence i carrying the draft fields with the date advanced by i calendar
months (platform rollover included in Date.addMonths); pre-existing
transactions are kept unchanged as a prefix and the group id occurs nowhere
else in the collection. -/
theorem handleAddTransaction_spec (draft : TxDraft) (nextId : Nat)
    (s : List Transaction)
    (hid : ∀ t ∈ s, t.id < nextId)
    (hrid : ∀ t ∈ s, ∀ g, t.recurringId = some g → g < nextId) :
    (handleAddTransaction draft 0 nextId s
        = s ++ [{ id := nextId, description := draft.description,
                  amount := draft.amount, type := draft.type,
                  category := draft.category, date := draft.date,
                  recurringId := none }]
      ∧ ∀ t ∈ s, t.id ≠ nextId)
    ∧ ∀ recurrence : Nat, 1 ≤ recurrence →
        ∃ newTransactions : List Transaction,
          handleAddTransaction draft recurrence nextId s = s ++ newTransactions
          ∧ newTransactions.length = recurrence + 1
          ∧ (∀ i : Nat, (hi : i < newTransactions.length) →
              newTransactions[i]
                = { id := nextId + 1 + i, description := draft.description,
                    amount := draft.amount, type := draft.type,
                    category := draft.category,
                    date := draft.date.addMonths i,
                    recurringId := some nextId })
          ∧ (newTransactions.map Transaction.id).Nodup
          ∧ (∀ t ∈ newTransactions, ∀ t2 ∈ s, t.id ≠ t2.id)
          ∧ (∀ t ∈ s, t.recurringId ≠ some nextId) := by
  constructor
  · constructor
    · unfold handleAddTransaction
      rw [if_neg (by omega)]
    · intro t ht
      exact Nat.ne_of_lt (hid t ht)
  · intro recurrence hrec
    refine ⟨(List.range (recurrence + 1)).map fun i =>
      { id := nextId + 1 + i, description := draft.description,
        amount := draft.amount, type := draft.type, category := draft.category,
        date := draft.date.addMonths i, recurringId := some nextId },
      ?_, ?_, ?_, ?_, ?_, ?_⟩
    · unfold handleAddTransaction
      rw [if_pos (by omega)]
    · simp
    · intro i hi
      simp only [List.getElem_map, List.getElem_range]
    · have hmap : ((List.range (recurrence + 1)).map fun i =>
          ({ id := nextId + 1 + i, description := draft.description,
             amount := draft.amount, type := draft.type,
             category := draft.category, date := draft.date.addMonths i,
             recurringId := some nextId } : Transaction)).map Transaction.id
          = (List.range (recurrence + 1)).map fun i => nextId + 1 + i := by
        rw [List.map_map]
        rfl
      rw [hmap]
      exact List.Nodup.map (fun a b h => by omega) (List.nodup_range _)
    · intro t ht t2 ht2
      obtain ⟨i, _, rfl⟩ := List.mem_map.mp ht
      have h2 := hid t2 ht2
      show nextId + 1 + i ≠ t2.id
      omega
    · intro t ht h
      exact absurd (hrid t ht nextId h) (lt_irrefl _)

/-- Witness for C1 at a concrete draft, id supply 5 and empty collection. -/
theorem handleAddTransaction_spec_witness :
    handleAddTransaction
        ⟨"rent", 100, TxType.expense, some "Household", ⟨24288, 15⟩⟩ 0 5 []
      = [{ id := 5, description := "rent", amount := 100,
           type := TxType.expense, category := some "Household",
           date := ⟨24288, 15⟩, recurringId := none }] := by
  have h := (handleAddTransaction_spec
    ⟨"rent", 100, TxType.expense, some "Household", ⟨24288, 15⟩⟩ 5 []
    (by simp) (by simp)).1.1
  simpa using h

/-- C8: a submission of the add form or the edit form with an empty
description, an amount that does not parse, or a non-positive parsed amount
is rejected before any mutation: the collection is returned unchanged, the
inline validation message is set, and the add or update operation is never
reached. -/
theorem form_validation_rejects (description : String) (numericAmount : Option ℚ)
    (hbad : description = "" ∨ numericAmount = none
      ∨ ∃ a, numericAmount = some a ∧ a ≤ 0) :
    (∀ type category isRecurring recurrence currentDate nextId s,
        TransactionForm.handleSubmit description numericAmount type category
          isRecurring recurrence currentDate nextId s = (s, some validationError))
    ∧ (∀ transaction type category editedDate scope s,
        EditTransactionModal.handleUpdate transaction description numericAmount
          type category editedDate scope s = (s, some validationError)) := by
  constructor
  · intro type category isRecurring recurrence currentDate nextId s
    unfold TransactionForm.handleSubmit
    cases hna : numericAmount with
    | none => rfl
    | some a =>
      have hcond : description = "" ∨ a ≤ 0 := by
        rcases hbad with h | h | ⟨b, hb, hb2⟩
        · exact Or.inl h
        · rw [hna] at h
          exact absurd h (by simp)
        · rw [hna] at hb
          injection hb with h2
          exact Or.inr (h2 ▸ hb2)
      dsimp only
      rw [if_pos hcond]
  · intro transaction type category editedDate scope s
    unfold EditTransactionModal.handleUpdate
    cases hna : numericAmount with
    | none => rfl
    | some a =>
      have hcond : description = "" ∨ a ≤ 0 := by
        rcases hbad with h | h | ⟨b, hb, hb2⟩
        · exact Or.inl h
        · rw [hna] at h
          exact absurd h (by simp)
        · rw [hna] at hb
          injection hb with h2
          exact Or.inr (h2 ▸ hb2)
      dsimp only
      rw [if_pos hcond]

/-- Witness for C8 at an empty description with a well-formed amount. -/
theorem form_validation_rejects_witness :
    TransactionForm.handleSubmit "" (some 5) TxType.expense "Groceries" false 1
        ⟨24288, 5⟩ 0 [] = ([], some validationError) :=
  (form_validation_rejects "" (some 5) (Or.inl rfl)).1 TxType.expense
    "Groceries" false 1 ⟨24288, 5⟩ 0 []

theorem invariant_handleAddTransaction (draft : TxDraft)
    (hd : 0 < draft.amount ∧ (draft.category.isSome ↔ draft.type = TxType.expense))
    (recurrence nextId : Nat) (s : List Transaction)
    (hs : ∀ t ∈ s, TransactionInvariant t) :
    ∀ t ∈ handleAddTransaction draft recurrence nextId s, TransactionInvariant t := by
  intro t ht
  unfold handleAddTransaction at ht
  split at ht
  · rcases List.mem_append.mp ht with h | h
    · exact hs t h
    · obtain ⟨i, _, rfl⟩ := List.mem_map.mp h
      exact ⟨hd.1, hd.2⟩
  · rcases List.mem_append.mp ht with h | h
    · exact hs t h
    · rcases List.mem_singleton.mp h with rfl
      exact ⟨hd.1, hd.2⟩

theorem invariant_handleUpdateTransaction (u : Transaction)
    (hu : TransactionInvariant u) (scope : String) (s : List Transaction)
    (hs : ∀ t ∈ s, TransactionInvariant t) :
    ∀ t ∈ handleUpdateTransaction u scope s, TransactionInvariant t := by
  intro t ht
  unfold handleUpdateTransaction at ht
  split at ht
  · cases hf : s.find? (fun t => t.id == u.id) with
    | none =>
      rw [hf] at ht
      exact hs t ht
    | some orig =>
      rw [hf] at ht
      dsimp only at ht
      obtain ⟨t0, ht0, he⟩ := List.mem_map.mp ht
      cases hf2 : (rewriteFrom u 0 (futureSorted u orig.date s)).find?
          (fun uft => uft.id == t0.id) with
      | none =>
        rw [hf2] at he
        exact he ▸ hs t0 ht0
      | some v =>
        rw [hf2] at he
        have hv := List.mem_of_find?_eq_some hf2
        obtain ⟨j, t1, _, rfl⟩ := mem_rewriteFrom u v 0 _ hv
        exact he ▸ ⟨hu.1, hu.2⟩
  · obtain ⟨t0, ht0, he⟩ := List.mem_map.mp ht
    by_cases hid : t0.id = u.id
    · rw [if_pos hid] at he
      exact he ▸ hu
    · rw [if_neg hid] at he
      exact he ▸ hs t0 ht0

theorem invariant_handleDeleteTransaction (i : Nat) (rid : Option Nat)
    (confirm : Bool) (s : List Transaction)
    (hs : ∀ t ∈ s, TransactionInvariant t) :
    ∀ t ∈ handleDeleteTransaction i rid confirm s, TransactionInvariant t := by
  intro t ht
  unfold handleDeleteTransaction at ht
  rcases rid with _ | g
  · exact hs t (List.mem_filter.mp ht).1
  · by_cases hc : confirm = true
    · rw [if_pos hc] at ht
      cases hf : s.find? (fun t => t.id == i) with
      | none =>
        rw [hf] at ht
        exact hs t ht
      | some target =>
        rw [hf] at ht
        exact hs t (List.mem_filter.mp ht).1
    · rw [if_neg hc] at ht
      exact hs t (List.mem_filter.mp ht).1

/-- C9: the data-model invariant (positive amount, category exactly for
Expense) is preserved by every UI-reachable mutation: any add-form
submission with any repeat count, any edit-modal submission with either
scope including a type change, and any deletion map a collection of
well-formed transactions to a collection of well-formed transactions. -/
theorem transaction_invariant_preserved (s : List Transaction)
    (hs : ∀ t ∈ s, TransactionInvariant t) :
    (∀ description numericAmount type category isRecurring recurrence
        currentDate nextId,
      ∀ t ∈ (TransactionForm.handleSubmit description numericAmount type
          category isRecurring recurrence currentDate nextId s).1,
        TransactionInvariant t)
    ∧ (∀ transaction description numericAmount type category editedDate scope,
      ∀ t ∈ (EditTransactionModal.handleUpdate transaction description
          numericAmount type category editedDate scope s).1,
        TransactionInvariant t)
    ∧ (∀ i rid confirm,
      ∀ t ∈ handleDeleteTransaction i rid confirm s, TransactionInvariant t) := by
  have hcat : ∀ (type : TxType) (category : String),
      ((if type = TxType.expense then some category else none) : Option String).isSome
        ↔ type = TxType.expense := by
    intro type category
    by_cases h : type = TxType.expense
    · simp [h]
    · simp [h]
  refine ⟨?_, ?_, ?_⟩
  · intro description numericAmount type category isRecurring recurrence
      currentDate nextId
    unfold TransactionForm.handleSubmit
    cases numericAmount with
    | none => exact hs
    | some a =>
      dsimp only
      by_cases hcond : description = "" ∨ a ≤ 0
      · rw [if_pos hcond]
        exact hs
      · rw [if_neg hcond]
        have ha : 0 < a := lt_of_not_ge fun h => hcond (Or.inr h)
        exact invariant_handleAddTransaction _ ⟨ha, hcat type category⟩ _ _ s hs
  · intro transaction description numericAmount type category editedDate scope
    unfold EditTransactionModal.handleUpdate
    cases numericAmount with
    | none => exact hs
    | some a =>
      dsimp only
      by_cases hcond : description = "" ∨ a ≤ 0
      · rw [if_pos hcond]
        exact hs
      · rw [if_neg hcond]
        have ha : 0 < a := lt_of_not_ge fun h => hcond (Or.inr h)
        exact invariant_handleUpdateTransaction _ ⟨ha, hcat type category⟩ _ s hs
  · intro i rid confirm
    exact invariant_handleDeleteTransaction i rid confirm s hs

/-- Witness for C9: the transaction appended by a valid add-form submission
over the empty collection is well-formed. -/
theorem transaction_invariant_preserved_witness :
    TransactionInvariant
      { id := 0, description := "rent", amount := 100, type := TxType.expense,
        category := some "Groceries", date := ⟨24288, 5⟩,
        recurringId := none } := by
  have h := (transaction_invariant_preserved [] (by simp)).1
    "rent" (some 100) TxType.expense "Groceries" false 1 ⟨24288, 5⟩ 0
  exact h _ (by decide)

/-- C4 (amended): when the budget editor opens on an initial budget whose
recurring map is empty or absent and the previous month has a budget with a
recurring object, the draft is synthesized field by field: each of
incomeGoal, savingsGoal and every expense category takes the previous value
exactly when its previous recurring flag is set, and otherwise the value of
the initial budget for the month — which is the built-in default 5000, 500
or 0 exactly when no budget is stored for the month — and the previous
recurring flags are adopted unchanged; when the initial budget has a
non-empty recurring map it is used as-is together with its own flags. -/
theorem budget_carry_forward_amended (initialBudget : Budget) :
    (∀ pb pr, pb.recurring = some pr → initialBudget.isInitialDefault = true →
        (budgetSetupDraft initialBudget (some pb)).2 = pr
        ∧ (budgetSetupDraft initialBudget (some pb)).1.incomeGoal
            = (if pr.incomeGoal.getD false then pb.incomeGoal
               else initialBudget.incomeGoal)
        ∧ (budgetSetupDraft initialBudget (some pb)).1.savingsGoal
            = (if pr.savingsGoal.getD false then pb.savingsGoal
               else initialBudget.savingsGoal)
        ∧ ∀ cat, (budgetSetupDraft initialBudget (some pb)).1.expenseBudgets cat
            = (if ((pr.expenseBudgets.getD fun _ => none) cat).getD false
               then pb.expenseBudgets cat
               else initialBudget.expenseBudgets cat))
    ∧ (initialBudget.isInitialDefault = false →
        ∀ previous, budgetSetupDraft initialBudget previous
          = (initialBudget.toValues, initialBudget.recurring.getD emptyFlags))
    ∧ (emptyBudget.incomeGoal = 5000 ∧ emptyBudget.savingsGoal = 500
        ∧ ∀ cat, emptyBudget.expenseBudgets cat = 0) := by
  refine ⟨?_, ?_, rfl, rfl, fun _ => rfl⟩
  · intro pb pr hpr hinit
    have hred : budgetSetupDraft initialBudget (some pb)
        = ({ incomeGoal := if pr.incomeGoal.getD false then pb.incomeGoal
               else initialBudget.incomeGoal,
             savingsGoal := if pr.savingsGoal.getD false then pb.savingsGoal
               else initialBudget.savingsGoal,
             expenseBudgets := fun cat =>
               match pr.expenseBudgets with
               | some flags =>
                 if (flags cat).getD false then pb.expenseBudgets cat
                 else initialBudget.expenseBudgets cat
               | none => initialBudget.expenseBudgets cat },
           pr) := by
      simp only [budgetSetupDraft, hpr, hinit]
      rfl
    refine ⟨by rw [hred], by rw [hred], by rw [hred], ?_⟩
    intro cat
    rw [hred]
    cases hpe : pr.expenseBudgets with
    | none => simp [hpe]
    | some flags => simp [hpe]
  · intro hinit previous
    cases previous with
    | none => rfl
    | some pb =>
      cases hpr : pb.recurring with
      | none => simp only [budgetSetupDraft, hpr]
      | some pr =>
        simp only [budgetSetupDraft, hpr, hinit]
        rfl

/-- Witness for C4 (amended): with the built-in empty budget as initial and
a previous budget of 6000 whose income flag is set, the draft income goal is
6000 and the flags are adopted. -/
theorem budget_carry_forward_amended_witness :
    (budgetSetupDraft emptyBudget (some wPrevC4)).1.incomeGoal = 6000
    ∧ (budgetSetupDraft emptyBudget (some wPrevC4)).2
        = { incomeGoal := some true, savingsGoal := none,
            expenseBudgets := none } := by
  have h := (budget_carry_forward_amended emptyBudget).1 wPrevC4
    { incomeGoal := some true, savingsGoal := none, expenseBudgets := none }
    rfl rfl
  refine ⟨?_, h.1⟩
  rw [h.2.1]
  rfl

/-- Counterexample to C4 as stated: the current month has a stored budget
with income goal 7000 and an empty recurring map, and the previous recurring
income flag is present but false; the claim says the synthesized income goal
falls back to the built-in default 5000, but the code falls back to the
stored current value 7000. -/
theorem budget_carry_forward_counterexample :
    cInitC4.isInitialDefault = true
    ∧ cPrevC4.recurring
        = some { incomeGoal := some false, savingsGoal := none,
                 expenseBudgets := none }
    ∧ (budgetSetupDraft cInitC4 (some cPrevC4)).1.incomeGoal = 7000
    ∧ (budgetSetupDraft cInitC4 (some cPrevC4)).1.incomeGoal ≠ 5000 := by
  refine ⟨rfl, rfl, rfl, by decide⟩

end LoneBudget
